import Mathlib

/-!
Shallow embedding of the relational mapping core of bookshelf.js 0.1.0
(src/bookshelf.js): attribute containers, relation descriptors, the eager
relation resolver (EagerRelation), the query dispatcher (Sync) and the
many-to-many pivot helpers, together with theorems checking the natural
language specification against this embedding.
-/

/-- A JavaScript attribute value as the modelled code stores and compares it:
numbers, strings, null and undefined. -/
inductive Val where
  | vnum : Int → Val
  | vstr : String → Val
  | vnull : Val
  | vundef : Val
deriving DecidableEq, Repr

/-- JavaScript truthiness of an attribute value (0, the empty string, null and
undefined are falsy). -/
def Val.truthy : Val → Bool
  | .vnum n => n != 0
  | .vstr s => s != ""
  | .vnull => false
  | .vundef => false

/-- The JS loose test x != null: false exactly for null and undefined. -/
def Val.neNull : Val → Bool
  | .vnull => false
  | .vundef => false
  | _ => true

/-- An attribute map (a plain JS object used as a hash): key-value pairs in
insertion order; by construction a JS object never binds a key twice. -/
abbrev AttrMap := List (String × Val)

/-- Property read obj[k]: the first (for a JS object, the only) binding of k,
or undefined when the key is absent. -/
def aget (m : AttrMap) (k : String) : Val :=
  match m with
  | [] => .vundef
  | p :: tl => if p.1 == k then p.2 else aget tl k

/-- Optional key lookup, distinguishing a stored undefined from absence. -/
def lookupA (m : AttrMap) (k : String) : Option Val :=
  match m with
  | [] => none
  | p :: tl => if p.1 == k then some p.2 else lookupA tl k

/-- Property write obj[k] = v: overwrite the first (for a JS object, the only)
existing binding in place, else append the new binding at the end. -/
def aset (m : AttrMap) (k : String) (v : Val) : AttrMap :=
  match m with
  | [] => [(k, v)]
  | p :: tl => if p.1 == k then (k, v) :: tl else p :: aset tl k v

/-- The underscore extend(base, upd) call: copy every binding of upd onto
base, the source's bindings overriding the destination's. -/
def extendA (base upd : AttrMap) : AttrMap :=
  upd.foldl (fun acc p => aset acc p.1 p.2) base

/-- The relation kinds of bookshelf (the type field of the _relation options
hash built by the relation accessors). -/
inductive RelType where
  | hasOne | hasMany | belongsTo | belongsToMany
deriving DecidableEq, Repr

/-- The _relation options hash built by hasOne, hasMany, belongsTo and
belongsToMany (src/bookshelf.js lines 149-190 and 301-347) and consumed by the
constraint builders, the eager matcher and the pivot helpers. A string field
the source leaves unset is the empty string and an unset fkValue is undefined,
mirroring absent properties of the JS options hash. -/
structure RelationOpts where
  type : RelType
  foreignKey : String
  otherKey : String := ""
  joinTableName : String := ""
  fkValue : Val := .vundef
  parentIdAttr : String := ""
  pivotColumns : List String := []
deriving DecidableEq, Repr

/-- One where constraint placed on the query-builder collaborator: an equality
(where) or a membership constraint (whereIn). -/
inductive WhereClause where
  | whereEq : String → Val → WhereClause
  | whereIn : String → List Val → WhereClause
deriving DecidableEq, Repr

/-- The underscore pluck(rows, key) call: the key's value out of every row. -/
def pluckA (rows : List AttrMap) (key : String) : List Val :=
  rows.map (fun r => aget r key)

/-- The constraints helper (src/bookshelf.js lines 607-615): with a parent
response present (an eager load across a parent set) the query gets
whereIn(foreignKey, pluck(resp, parentIdAttr)); without one (constrained
single-parent mode) it gets where(foreignKey, =, fkValue). -/
def constraints (rel : RelationOpts) (resp : Option (List AttrMap)) : WhereClause :=
  match resp with
  | some rows => .whereIn rel.foreignKey (pluckA rows rel.parentIdAttr)
  | none => .whereEq rel.foreignKey rel.fkValue

/-- A relation target instance as returned by a relation accessor: the built
_relation options plus the target's own tableName and idAttribute (read by
the belongsToMany constraint builder). -/
structure RelationTarget where
  rel : RelationOpts
  tableName : String
  idAttribute : String
deriving DecidableEq, Repr

/-- The select query one eager relation fetch issues: selected columns (empty
means the collaborator's default of all columns), equality joins
(table, left column, right column) and where constraints. -/
structure SelectQuery where
  columns : List String
  joins : List (String × String × String)
  wheres : List WhereClause
deriving DecidableEq, Repr

/-- The belongsToMany constraint helper (src/bookshelf.js lines 618-651): on a
fresh relation fetch the builder and relation column lists are empty, so the
target table's star column is pushed, then the two pivot key columns aliased
with the _pivot_ prefix and any declared extra pivot columns; the join table
is joined on target identity = joinTable.foreignKey, and the constraint is on
joinTable.otherKey (membership for a parent response, equality for fkValue). -/
def belongsToManyConstraints (target : RelationTarget) (resp : Option (List AttrMap)) :
    SelectQuery :=
  let relation := target.rel
  let tableName := target.tableName
  let idAttribute := target.idAttribute
  let otherKey := relation.otherKey
  let foreignKey := relation.foreignKey
  let joinTableName := relation.joinTableName
  let columns := [tableName ++ ".*"]
  let columns := columns ++
    [joinTableName ++ "." ++ otherKey ++ " as _pivot_" ++ otherKey,
     joinTableName ++ "." ++ foreignKey ++ " as _pivot_" ++ foreignKey]
  let columns := columns ++ relation.pivotColumns
  let joins := [(joinTableName, tableName ++ "." ++ idAttribute,
    joinTableName ++ "." ++ foreignKey)]
  let wheres :=
    match resp with
    | some rows => [WhereClause.whereIn (joinTableName ++ "." ++ otherKey)
        (pluckA rows idAttribute)]
    | none => [WhereClause.whereEq (joinTableName ++ "." ++ otherKey) relation.fkValue]
  SelectQuery.mk columns joins wheres

/-- Bookshelf.addConstraints (src/bookshelf.js lines 579-585): belongsToMany
relations build the join query; every other relation kind gets the plain
constraints helper on an otherwise unmodified select. -/
def addConstraints (target : RelationTarget) (resp : Option (List AttrMap)) :
    SelectQuery :=
  if target.rel.type == .belongsToMany then belongsToManyConstraints target resp
  else SelectQuery.mk [] [] [constraints target.rel resp]

/-- A requested relation path, represented by its dot-separated segments: the
very first operation of processRelated is split('.'), and the deeper suffix a
level records is slice(1).join('.'), re-split identically at the next level
(segments are plain relation names without dots, so the round trip is the
identity). -/
abbrev RelPath := List String

/-- First segment of a path (related[0] after the split). -/
def firstName (p : RelPath) : String := p.headD ""

/-- The remaining dotted suffix of a path (related.slice(1).join('.')), when
more than one segment remains. -/
def suffixOf (p : RelPath) : Option RelPath :=
  if 1 < p.length then some p.tail else none

/-- Record one suffix under a name in the subRelated hash of processRelated:
append to the name's list, creating the entry on first use. -/
def addSub (sr : List (String × List RelPath)) (name : String) (suffix : RelPath) :
    List (String × List RelPath) :=
  match sr with
  | [] => [(name, [suffix])]
  | p :: tl =>
    if p.1 == name then (p.1, p.2 ++ [suffix]) :: tl
    else p :: addSub tl name suffix

/-- Read a name's suffix list out of the subRelated hash ([] when absent). -/
def lookupSub (sr : List (String × List RelPath)) (name : String) : List RelPath :=
  match sr with
  | [] => []
  | p :: tl => if p.1 == name then p.2 else lookupSub tl name

/-- The per-level bookkeeping of processRelated: the distinct relation names
in first-seen order (the keys of the handled hash, which JS iterates in
insertion order) and, per name, the recorded deeper suffixes (subRelated). -/
structure PathsState where
  handledNames : List String
  subRelated : List (String × List RelPath)
deriving DecidableEq, Repr

/-- One iteration of the path loop of processRelated (src/bookshelf.js lines
479-505): split the path, record the deeper suffix unconditionally, then
register the first segment unless the name was already handled at this level
(the continue on a truthy handled[name]). -/
def stepPath (st : PathsState) (p : RelPath) : PathsState :=
  let name := firstName p
  let st1 :=
    match suffixOf p with
    | some suf => PathsState.mk st.handledNames (addSub st.subRelated name suf)
    | none => st
  if st1.handledNames.contains name then st1
  else PathsState.mk (st1.handledNames ++ [name]) st1.subRelated

/-- The whole path loop of processRelated over a normalized withRelated list. -/
def processPaths (withRelated : List RelPath) : PathsState :=
  withRelated.foldl stepPath (PathsState.mk [] [])

/-- All deeper suffixes a path list requests under one top-level name, in
request order: the specification-side description of the subRelated hash. -/
def suffixesOf (withRelated : List RelPath) (n : String) : List RelPath :=
  withRelated.filterMap (fun p => if firstName p == n then suffixOf p else none)

/-- The errors the modelled code can raise. typeErrorNotAFunction is the JS
TypeError from calling an undefined property as a function; unknownRelation is
the explicit throw of the message (name is not defined on the model);
relationTypeMismatch is the explicit throw guarding single-entity relation
targets; destroyWithoutConstraint is the Sync.del rejection. -/
inductive JsError where
  | typeErrorNotAFunction : String → JsError
  | unknownRelation : String → JsError
  | relationTypeMismatch : RelType → JsError
  | destroyWithoutConstraint : JsError
deriving DecidableEq, Repr

/-- A constructed relation target instance is a JS object, hence truthy. -/
def relationTruthy (_target : RelationTarget) : Bool := true

/-- Invoking the relation accessor target[name]() inside processRelated
(src/bookshelf.js lines 492-503): when the entity type has no such accessor,
calling the undefined property raises a TypeError before anything else; when
the accessor exists it returns a constructed target instance, which is truthy,
so the later guard (if not relation, throw (name is not defined on the
model)) can never fire. -/
def invokeAccessor (accessors : String → Option RelationTarget) (name : String) :
    Except JsError RelationTarget :=
  match accessors name with
  | none => .error (.typeErrorNotAFunction name)
  | some target =>
    if relationTruthy target then .ok target
    else .error (.unknownRelation name)

/-- One batched child fetch dispatched by processRelated for one handled
relation name: EagerRelation.fetch (src/bookshelf.js lines 433-465) issues
exactly one select query for it, built by addConstraints from the parent
response, and recurses into the recorded suffix paths (passed as the nested
withRelated) once its own rows are known. -/
structure FetchCall where
  name : String
  target : RelationTarget
  subPaths : List RelPath
  query : SelectQuery
deriving DecidableEq, Repr

/-- The fetch-dispatch half of processRelated on an error-free level: one
FetchCall per distinct handled name, in first-seen order. accessors gives each
relation accessor's eager-mode result (none when the entity type has no such
accessor, whose FetchCall is then simply absent); parentResponse is the parent
rows for an Entity Set parent and none in constrained single-parent mode. -/
def levelFetches (accessors : String → Option RelationTarget)
    (withRelated : List RelPath) (parentResponse : Option (List AttrMap)) :
    List FetchCall :=
  let st := processPaths withRelated
  st.handledNames.filterMap (fun n =>
    (accessors n).map (fun target =>
      FetchCall.mk n target (lookupSub st.subRelated n)
        (addConstraints target parentResponse)))

/-- processRelated (src/bookshelf.js lines 469-524) as the list of batched
fetches it dispatches: parse the paths, invoke each distinct name's accessor
in eager mode, and build one constrained fetch per name; a missing accessor
aborts the whole call with its TypeError. -/
def processRelatedFetches (accessors : String → Option RelationTarget)
    (withRelated : List RelPath) (parentResponse : Option (List AttrMap)) :
    Except JsError (List FetchCall) :=
  let st := processPaths withRelated
  st.handledNames.mapM (fun n =>
    (invokeAccessor accessors n).map (fun target =>
      FetchCall.mk n target (lookupSub st.subRelated n)
        (addConstraints target parentResponse)))

/-- A value stored in an Entity's relation map: a single related entity (its
attribute map) or an entity set (one attribute map per member). -/
inductive RelValue where
  | single : AttrMap → RelValue
  | coll : List AttrMap → RelValue
deriving DecidableEq, Repr

/-- The Backbone findWhere call as the eager matcher uses it (the where hash
it builds always has exactly one key): the first fetched model whose key
equals the value. -/
def findWhereA (ms : List AttrMap) (k : String) (v : Val) : Option AttrMap :=
  ms.find? (fun m => aget m k == v)

/-- Bookshelf.eagerRelated (src/bookshelf.js lines 588-604): the per-parent
assignment computed for an Entity Set parent. hasOne and belongsTo pass
findWhere's result through as is -- a model, or undefined (here none) when
nothing matches; hasMany and belongsToMany rebuild an entity set of every
model matching on the foreign key, respectively on the _pivot_ aliased other
key. -/
def eagerRelated (rel : RelationOpts) (eager : List AttrMap) (id : Val) :
    Option RelValue :=
  match rel.type with
  | .hasOne => (findWhereA eager rel.foreignKey id).map RelValue.single
  | .belongsTo => (findWhereA eager rel.foreignKey id).map RelValue.single
  | .hasMany =>
      some (.coll (eager.filter (fun m => aget m rel.foreignKey == id)))
  | .belongsToMany =>
      some (.coll (eager.filter (fun m => aget m ("_pivot_" ++ rel.otherKey) == id)))

/-- The match key the Entity Set branch of matchResponses computes per parent
(src/bookshelf.js line 552): the parent's otherKey attribute for belongsTo,
else the parent's own identity. -/
def matchParentKey (rel : RelationOpts) (idAttribute : String) (m : AttrMap) : Val :=
  if rel.type == .belongsTo then aget m rel.otherKey else aget m idAttribute

/-- The Entity Set branch of matchResponses (src/bookshelf.js lines 545-555):
what each parent's relation map holds under the handled name after matching
(none models the undefined findWhere result being assigned). -/
def matchCollection (rel : RelationOpts) (idAttribute : String)
    (parents : List AttrMap) (fetched : List AttrMap) : List (Option RelValue) :=
  parents.map (fun m => eagerRelated rel fetched (matchParentKey rel idAttribute m))

/-- The single-Entity branch of matchResponses (src/bookshelf.js lines
556-564): hasOne and belongsTo assign relation.models[0] or, when the fetched
list is empty, a freshly constructed empty child (new modelCtor() holds an
empty attribute map); the multi kinds rebuild the fetched models as an entity
set. -/
def matchSingleAssign (rel : RelationOpts) (models : List AttrMap) : RelValue :=
  match rel.type with
  | .hasOne => .single (models.headD [])
  | .belongsTo => .single (models.headD [])
  | _ => .coll models

/-- A JavaScript value as seen by the instanceof guard of _relatesTo: a
boolean primitive, or an object tagged with whether its prototype chain
includes Model.prototype. -/
inductive JsVal where
  | jsbool : Bool → JsVal
  | jsobj : Bool → JsVal
deriving DecidableEq, Repr

/-- JS truthiness: every object is truthy, a boolean is its own truth value. -/
def JsVal.jsTruthy : JsVal → Bool
  | .jsbool b => b
  | .jsobj _ => true

/-- The JS prefix-not operator: coerce to boolean and negate, yielding a
boolean primitive. -/
def jsNot (v : JsVal) : JsVal := .jsbool (! v.jsTruthy)

/-- The instanceof Model test: true exactly for an object whose prototype
chain includes Model.prototype; a primitive is an instance of nothing. -/
def jsInstanceOfModel : JsVal → Bool
  | .jsbool _ => false
  | .jsobj m => m

/-- A constructor passed as the Target of a relation accessor, described by
the facts _relatesTo and the accessors consult: whether Target.prototype is an
instance of Model, and the prototype's tableName and idAttribute. -/
structure TargetType where
  protoIsModel : Bool
  protoTableName : String
  protoIdAttribute : String
deriving DecidableEq, Repr

/-- The state of the Entity a relation accessor or Sync operation runs
against: its idAttribute, its attribute map, and the transient _isEager flag
processRelated sets around the accessor invocation. Its identity value
(this.id) is the idAttribute attribute. -/
structure ModelState where
  idAttribute : String
  attributes : AttrMap
  isEager : Bool
deriving DecidableEq, Repr

/-- The _relatesTo helper (src/bookshelf.js lines 301-347). The source guards
the single-entity kinds with the condition (in JS source text)
not Target.prototype instanceof Model, which the language parses as
(not Target.prototype) instanceof Model: the prototype is an object, so the
negation is the boolean primitive false, which is an instance of no
constructor, and the guard can never fire. A multi-kind Target whose prototype
is a Model is wrapped into a collection type (this only changes the captured
child constructors, represented structurally elsewhere). In eager mode the
parent id attribute is captured for later batching; otherwise the foreign-key
value is bound at once from the invoking Entity: its otherKey attribute for
belongsTo, its identity for the other kinds. -/
def relatesTo (this_ : ModelState) (Target : TargetType) (opts : RelationOpts) :
    Except JsError RelationTarget :=
  let type := opts.type
  let multi := type == .hasMany || type == .belongsToMany
  if !multi && jsInstanceOfModel (jsNot (JsVal.jsobj Target.protoIsModel)) then
    .error (.relationTypeMismatch type)
  else
    let opts1 :=
      if this_.isEager then
        { opts with parentIdAttr := this_.idAttribute }
      else if type == .belongsTo then
        { opts with fkValue := aget this_.attributes opts.otherKey }
      else
        { opts with fkValue := aget this_.attributes this_.idAttribute }
    .ok (RelationTarget.mk opts1 Target.protoTableName Target.protoIdAttribute)

/-- The hasOne accessor (src/bookshelf.js lines 149-154), with the foreignKey
given explicitly (the source's default derives it from the owner's table name
through the external inflection collaborator). -/
def hasOne (this_ : ModelState) (Target : TargetType) (foreignKey : String) :
    Except JsError RelationTarget :=
  relatesTo this_ Target { type := .hasOne, foreignKey := foreignKey }

/-- The hasMany accessor (src/bookshelf.js lines 160-165), foreignKey explicit
as for hasOne. -/
def hasMany (this_ : ModelState) (Target : TargetType) (foreignKey : String) :
    Except JsError RelationTarget :=
  relatesTo this_ Target { type := .hasMany, foreignKey := foreignKey }

/-- The belongsTo accessor (src/bookshelf.js lines 169-175): the foreignKey is
the target prototype's idAttribute; the otherKey is given explicitly (default
from inflection). -/
def belongsTo (this_ : ModelState) (Target : TargetType) (otherKey : String) :
    Except JsError RelationTarget :=
  relatesTo this_ Target
    { type := .belongsTo, foreignKey := Target.protoIdAttribute, otherKey := otherKey }

/-- The belongsToMany accessor (src/bookshelf.js lines 180-190), all keys
explicit (defaults from inflection and table-name sorting). -/
def belongsToMany (this_ : ModelState) (Target : TargetType)
    (joinTableName foreignKey otherKey : String) : Except JsError RelationTarget :=
  relatesTo this_ Target
    { type := .belongsToMany, foreignKey := foreignKey, otherKey := otherKey,
      joinTableName := joinTableName }

/-- The update call Sync.update issues against the query-builder collaborator:
the identity equality constraint and the attribute hash sent. -/
structure UpdateQuery where
  whereKey : String
  whereVal : Val
  updateAttrs : AttrMap
deriving DecidableEq, Repr

/-- Model.prototype.format (src/bookshelf.js lines 261-263): passes the
attribute hash through unchanged. -/
def formatAttrs (attrs : AttrMap) : AttrMap := attrs

/-- Sync.update (src/bookshelf.js lines 762-767). The local attrs variable is
narrowed to the explicit attributes when options.partial is set and attrs were
given, but the issued builder call passes format of a copy of
this.model.attributes -- the full map -- and constrains on
where(idAttribute, id) in every case. -/
def syncUpdate (model : ModelState) (attrs : Option AttrMap) (isPartial : Bool) :
    UpdateQuery :=
  let _narrowed : AttrMap :=
    match attrs, isPartial with
    | some a, true => a
    | _, _ => model.attributes
  UpdateQuery.mk model.idAttribute (aget model.attributes model.idAttribute)
    (formatAttrs model.attributes)

/-- The outcome of Sync.del: a rejected promise carrying the guard message, or
one delete issued under the listed where constraints. -/
inductive DelOutcome where
  | rejected : String → DelOutcome
  | issued : List WhereClause → DelOutcome
deriving DecidableEq, Repr

/-- Sync.del (src/bookshelf.js lines 770-780): when the model's identity value
passes the loose null test, the delete is constrained by identity equality on
top of whatever where clauses the query already carries; otherwise, with no
where clause already present, the call rejects before any query is issued,
and with one present the delete runs under the existing clauses alone
(where(undefined) adds no constraint at the collaborator). -/
def syncDel (model : ModelState) (existingWheres : List WhereClause) : DelOutcome :=
  let id := aget model.attributes model.idAttribute
  let wheres : Option WhereClause :=
    if id.neNull then some (.whereEq model.idAttribute id) else none
  match wheres with
  | none =>
    if existingWheres.length = 0 then
      .rejected "A model cannot be destroyed without a \"where\" clause or an idAttribute."
    else .issued existingWheres
  | some w => .issued (existingWheres ++ [w])

/-- An item of the ids argument of attach and detach: a bare identifier value,
an already-constructed child Entity (carrying its identity value -- the
handler reads nothing else from it), or a plain attribute hash. -/
inductive PivotItem where
  | bare : Val → PivotItem
  | entity : Val → PivotItem
  | hash : AttrMap → PivotItem
deriving DecidableEq, Repr

/-- JS truthiness of one item in the normalized ids list (objects truthy). -/
def PivotItem.truthyItem : PivotItem → Bool
  | .bare v => v.truthy
  | .entity _ => true
  | .hash _ => true

/-- The ids argument of attach and detach: undefined or null (the loose
equality with void 0 matches both), a single non-array value, or an array. -/
inductive IdsArg where
  | undef : IdsArg
  | one : PivotItem → IdsArg
  | arr : List PivotItem → IdsArg
deriving DecidableEq, Repr

/-- Which builder call the pivot handler ends one item with. -/
inductive PivotMethod where
  | insert | del
deriving DecidableEq, Repr

/-- One query the pivot handler issues against the join table. -/
structure PivotQuery where
  table : String
  method : PivotMethod
  row : AttrMap
deriving DecidableEq, Repr

/-- The join row built for one handler item (src/bookshelf.js lines 796-811):
the owner-side key (pivot.otherKey) is set first to the relation's bound
value; then an Entity item sets the target key to that same bound value (the
source reads pivot.fkValue there, not the item's identity), a plain hash is
merged over the row with extend, and a truthy bare id sets the target key. -/
def handlerRow (pivot : RelationOpts) (item : PivotItem) : AttrMap :=
  let data : AttrMap := [(pivot.otherKey, pivot.fkValue)]
  match item with
  | .entity _ => aset data pivot.foreignKey pivot.fkValue
  | .hash h => extendA data h
  | .bare v => if v.truthy then aset data pivot.foreignKey v else data

/-- The pivot helper _handler (src/bookshelf.js lines 791-819) as the list of
join-table queries it issues: undefined ids short-circuit an insert with no
query at all; otherwise a non-array ids is normalized to a one-item or empty
array, and one insert respectively one constrained delete is issued per
item. -/
def handler (pivot : RelationOpts) (method : PivotMethod) (ids : IdsArg) :
    List PivotQuery :=
  match method, ids with
  | .insert, .undef => []
  | _, _ =>
    let items :=
      match ids with
      | .undef => []
      | .one i => if i.truthyItem then [i] else []
      | .arr l => l
    items.map (fun item =>
      PivotQuery.mk pivot.joinTableName method (handlerRow pivot item))

/-- attach (src/bookshelf.js lines 824-826): the handler with insert. -/
def attach (pivot : RelationOpts) (ids : IdsArg) : List PivotQuery :=
  handler pivot .insert ids

/-- detach (src/bookshelf.js lines 834-836): the handler with delete. -/
def detach (pivot : RelationOpts) (ids : IdsArg) : List PivotQuery :=
  handler pivot .del ids

deriving instance DecidableEq for Except

/-- Concrete fixture: a hasOne relation on key user_id, as built in eager mode
against a parent whose idAttribute is id. -/
def relHasOne : RelationOpts :=
  { type := .hasOne, foreignKey := "user_id", parentIdAttr := "id" }

/-- Concrete fixture: a hasMany relation on key user_id in eager mode. -/
def relHasMany : RelationOpts :=
  { type := .hasMany, foreignKey := "user_id", parentIdAttr := "id" }

/-- Concrete fixture: the eager hasMany posts relation target of a users
model (the example scenario tables users(id) and posts(id, user_id)). -/
def postsTarget : RelationTarget :=
  RelationTarget.mk relHasMany "posts" "id"

/-- Concrete fixture: an accessor set owning exactly one relation accessor,
named posts. -/
def postsAccessors : String → Option RelationTarget :=
  fun s => if s == "posts" then some postsTarget else none

/-- Concrete fixture: a belongsToMany users-roles relation through the
user_roles join table, bound to owner identity 1. -/
def pivotUserRoles : RelationOpts :=
  { type := .belongsToMany, foreignKey := "role_id", otherKey := "user_id",
    joinTableName := "user_roles", fkValue := Val.vnum 1 }

/-- Concrete fixture: a persisted model with identity 1 and two further
attributes. -/
def modelXY : ModelState :=
  ModelState.mk "id" [("id", Val.vnum 1), ("x", Val.vnum 0), ("y", Val.vnum 2)] false

/-- Concrete fixture: a model with no attributes at all (no identity value). -/
def modelBlank : ModelState := ModelState.mk "id" [] false

/-- Concrete fixture: a constructor whose prototype is not an instance of
Model (for example a Collection constructor), passed as a relation Target. -/
def nonModelTarget : TargetType := TargetType.mk false "things" "id"

/-!
Helper lemmas about the embedded containers and the path bookkeeping.
-/

theorem aget_aset_self (m : AttrMap) (k : String) (v : Val) :
    aget (aset m k v) k = v := by
  induction m with
  | nil => simp [aset, aget]
  | cons p tl ih =>
    by_cases h : (p.1 == k) = true
    · simp [aset, aget, h]
    · simp [aset, aget, h, ih]

theorem aget_aset_ne (m : AttrMap) (k' : String) (v : Val) (k : String)
    (h : (k' == k) = false) : aget (aset m k' v) k = aget m k := by
  induction m with
  | nil => simp [aset, aget, h]
  | cons p tl ih =>
    by_cases hp : (p.1 == k') = true
    · have he : p.1 = k' := eq_of_beq hp
      simp [aset, aget, hp, h, he]
    · simp [aset, aget, hp, ih]

theorem aget_extendA_not_mem (upd : AttrMap) (base : AttrMap) (k : String)
    (h : ∀ p ∈ upd, (p.1 == k) = false) :
    aget (extendA base upd) k = aget base k := by
  induction upd generalizing base with
  | nil => rfl
  | cons p tl ih =>
    have : extendA base (p :: tl) = extendA (aset base p.1 p.2) tl := rfl
    rw [this, ih _ (fun q hq => h q (List.mem_cons_of_mem _ hq)),
      aget_aset_ne _ _ _ _ (h p (List.mem_cons_self _ _))]

theorem aget_extendA_lookup (upd : AttrMap) (base : AttrMap) (k : String) (v : Val)
    (hnd : (upd.map Prod.fst).Nodup) (hv : lookupA upd k = some v) :
    aget (extendA base upd) k = v := by
  induction upd generalizing base with
  | nil => exact absurd hv (by simp [lookupA])
  | cons p tl ih =>
    have hstep : extendA base (p :: tl) = extendA (aset base p.1 p.2) tl := rfl
    by_cases h : (p.1 == k) = true
    · have he : p.1 = k := eq_of_beq h
      have hv' : v = p.2 := by
        simp [lookupA, h] at hv
        exact hv.symm
      have hnotin : ∀ q ∈ tl, (q.1 == k) = false := by
        intro q hq
        have hne : q.1 ≠ p.1 := by
          intro hcontr
          have := (List.nodup_cons.mp hnd).1
          exact this (hcontr ▸ List.mem_map_of_mem Prod.fst hq)
        simp [he ▸ hne]
      rw [hstep, aget_extendA_not_mem tl _ k hnotin, he, aget_aset_self, hv']
    · have hv'' : lookupA tl k = some v := by simpa [lookupA, h] using hv
      rw [hstep]
      exact ih _ (List.nodup_cons.mp hnd).2 hv''

theorem find?_eq_head_filter {α : Type} (p : α → Bool) (l : List α) :
    l.find? p = (l.filter p).head? := by
  induction l with
  | nil => rfl
  | cons a tl ih =>
    rw [List.find?_cons, List.filter_cons]
    by_cases h : p a = true
    · simp only [h, if_true]
      rfl
    · have h' : p a = false := by simpa using h
      simp only [h', if_false, Bool.false_eq_true]
      exact ih

theorem stepPath_handledNames (st : PathsState) (p : RelPath) :
    (stepPath st p).handledNames =
      if st.handledNames.contains (firstName p) then st.handledNames
      else st.handledNames ++ [firstName p] := by
  unfold stepPath
  cases h : suffixOf p <;> simp [h] <;> split <;> rfl

theorem stepPath_subRelated (st : PathsState) (p : RelPath) :
    (stepPath st p).subRelated =
      match suffixOf p with
      | some suf => addSub st.subRelated (firstName p) suf
      | none => st.subRelated := by
  unfold stepPath
  cases h : suffixOf p <;> simp [h] <;> split <;> rfl

theorem stepPath_nodup (st : PathsState) (p : RelPath)
    (h : st.handledNames.Nodup) : (stepPath st p).handledNames.Nodup := by
  rw [stepPath_handledNames]
  split
  · exact h
  · next hc =>
    refine List.nodup_append.mpr ⟨h, List.nodup_singleton _, ?_⟩
    intro a ha hb
    rw [List.mem_singleton] at hb
    subst hb
    exact hc (List.elem_iff.mpr ha)

theorem processPaths_nodup (wr : List RelPath) :
    (processPaths wr).handledNames.Nodup := by
  have haux : ∀ (l : List RelPath) (st : PathsState), st.handledNames.Nodup →
      (l.foldl stepPath st).handledNames.Nodup := by
    intro l
    induction l with
    | nil => intro st h; exact h
    | cons p tl ih => intro st h; exact ih _ (stepPath_nodup _ _ h)
  exact haux wr _ List.nodup_nil

theorem mem_stepPath_handled (st : PathsState) (p : RelPath) (n : String)
    (h : n ∈ st.handledNames) : n ∈ (stepPath st p).handledNames := by
  rw [stepPath_handledNames]
  split
  · exact h
  · exact List.mem_append_left _ h

theorem firstName_mem_stepPath (st : PathsState) (p : RelPath) :
    firstName p ∈ (stepPath st p).handledNames := by
  rw [stepPath_handledNames]
  split
  · next hc => exact List.elem_iff.mp hc
  · exact List.mem_append_right _ (List.mem_singleton.mpr rfl)

theorem mem_processPaths_handled (wr : List RelPath) (n : String)
    (hn : n ∈ wr.map firstName) : n ∈ (processPaths wr).handledNames := by
  have hkeep : ∀ (l : List RelPath) (st : PathsState), n ∈ st.handledNames →
      n ∈ (l.foldl stepPath st).handledNames := by
    intro l
    induction l with
    | nil => intro st h; exact h
    | cons p tl ih => intro st h; exact ih _ (mem_stepPath_handled _ _ _ h)
  have haux : ∀ (l : List RelPath) (st : PathsState), n ∈ l.map firstName →
      n ∈ (l.foldl stepPath st).handledNames := by
    intro l
    induction l with
    | nil => intro st h; simp at h
    | cons p tl ih =>
      intro st h
      have h' : n = firstName p ∨ ∃ a ∈ tl, firstName a = n := by simpa using h
      rcases h' with h1 | ⟨a, ha, hfa⟩
      · subst h1
        exact hkeep tl _ (firstName_mem_stepPath st p)
      · exact ih _ (List.mem_map.mpr ⟨a, ha, hfa⟩)
  exact haux wr _ hn

theorem lookupSub_addSub_self (sr : List (String × List RelPath)) (name : String)
    (suf : RelPath) :
    lookupSub (addSub sr name suf) name = lookupSub sr name ++ [suf] := by
  induction sr with
  | nil => simp [addSub, lookupSub]
  | cons p tl ih =>
    by_cases h : (p.1 == name) = true
    · simp [addSub, lookupSub, h]
    · simp [addSub, lookupSub, h, ih]

theorem lookupSub_addSub_ne (sr : List (String × List RelPath)) (name : String)
    (suf : RelPath) (n : String) (h : (name == n) = false) :
    lookupSub (addSub sr name suf) n = lookupSub sr n := by
  induction sr with
  | nil => simp [addSub, lookupSub, h]
  | cons p tl ih =>
    by_cases hp : (p.1 == name) = true
    · have he : p.1 = name := eq_of_beq hp
      have hn : (p.1 == n) = false := by
        subst he
        exact h
      simp [addSub, lookupSub, hp, hn]
    · by_cases hn : (p.1 == n) = true
      · simp [addSub, lookupSub, hp, hn]
      · simp [addSub, lookupSub, hp, hn, ih]

theorem lookupSub_stepPath (st : PathsState) (p : RelPath) (n : String) :
    lookupSub (stepPath st p).subRelated n =
      lookupSub st.subRelated n ++
        (if firstName p == n then (suffixOf p).toList else []) := by
  rw [stepPath_subRelated]
  cases hs : suffixOf p with
  | none => simp
  | some suf =>
    by_cases h : (firstName p == n) = true
    · have he : firstName p = n := eq_of_beq h
      rw [he]
      simp [h, lookupSub_addSub_self]
    · have h' : (firstName p == n) = false := by simpa using h
      simp [h', lookupSub_addSub_ne _ _ _ _ h']

theorem lookupSub_processPaths (wr : List RelPath) (n : String) :
    lookupSub (processPaths wr).subRelated n = suffixesOf wr n := by
  have haux : ∀ (l : List RelPath) (st : PathsState),
      lookupSub (l.foldl stepPath st).subRelated n =
        lookupSub st.subRelated n ++ suffixesOf l n := by
    intro l
    induction l with
    | nil => intro st; simp [suffixesOf]
    | cons p tl ih =>
      intro st
      rw [List.foldl_cons, ih, lookupSub_stepPath, List.append_assoc]
      congr 1
      simp only [suffixesOf, List.filterMap_cons]
      by_cases h : (firstName p == n) = true
      · cases hs : suffixOf p <;> simp [h, hs]
      · have h' : (firstName p == n) = false := by simpa using h
        simp [h']
  simpa [processPaths, lookupSub] using haux wr (PathsState.mk [] [])

theorem filter_name_filterMap (l : List String) (n : String)
    (g : String → Option FetchCall)
    (hg : ∀ m f, g m = some f → f.name = m)
    (hnd : l.Nodup) (hn : n ∈ l) (f₀ : FetchCall) (hf : g n = some f₀) :
    (l.filterMap g).filter (fun f => f.name == n) = [f₀] := by
  induction l with
  | nil => simp at hn
  | cons m tl ih =>
    rw [List.filterMap_cons]
    cases hgm : g m with
    | none =>
      have hmn : m ≠ n := by
        intro he
        rw [he, hf] at hgm
        cases hgm
      have hn' : n ∈ tl := by
        rcases List.mem_cons.mp hn with h | h
        · exact absurd h.symm hmn
        · exact h
      exact ih (List.nodup_cons.mp hnd).2 hn'
    | some f =>
      have hfname : f.name = m := hg m f hgm
      by_cases hmn : m = n
      · subst hmn
        have hff : f = f₀ := by
          rw [hf] at hgm
          exact (Option.some.inj hgm).symm
        subst hff
        rw [List.filter_cons]
        have hcond : (f.name == m) = true := by simp [hfname]
        rw [if_pos hcond]
        have hrest : (List.filterMap g tl).filter (fun f => f.name == m) = [] := by
          rw [List.filter_eq_nil_iff]
          intro f' hf'
          rcases List.mem_filterMap.mp hf' with ⟨a, ha, hga⟩
          have : f'.name = a := hg a f' hga
          have hna : a ≠ m := by
            intro he
            exact (List.nodup_cons.mp hnd).1 (he ▸ ha)
          simp [this, hna]
        rw [hrest]
      · have hn' : n ∈ tl := by
          rcases List.mem_cons.mp hn with h | h
          · exact absurd h.symm hmn
          · exact h
        rw [List.filter_cons]
        have hcond : (f.name == n) = false := by
          simp [hfname]
          exact hmn
        rw [if_neg (by simp [hcond])]
        exact ih (List.nodup_cons.mp hnd).2 hn'

theorem levelFetches_filter (accessors : String → Option RelationTarget)
    (wr : List RelPath) (pr : Option (List AttrMap)) (n : String)
    (tgt : RelationTarget) (hacc : accessors n = some tgt)
    (hn : n ∈ wr.map firstName) :
    (levelFetches accessors wr pr).filter (fun f => f.name == n) =
      [FetchCall.mk n tgt (lookupSub (processPaths wr).subRelated n)
        (addConstraints tgt pr)] := by
  unfold levelFetches
  refine filter_name_filterMap _ n _ ?_ (processPaths_nodup wr)
    (mem_processPaths_handled wr n hn) _ ?_
  · intro m f hmf
    rcases Option.map_eq_some'.mp hmf with ⟨t, _, hft⟩
    rw [← hft]
  · rw [hacc]
    rfl

theorem mapM_except_ok (g : String → Except JsError FetchCall)
    (g' : String → Option FetchCall) (l : List String)
    (h : ∀ a ∈ l, ∃ b, g a = .ok b ∧ g' a = some b) :
    l.mapM g = .ok (l.filterMap g') := by
  induction l with
  | nil => rfl
  | cons a tl ih =>
    rcases h a (List.mem_cons_self a tl) with ⟨b, hga, hg'a⟩
    rw [List.filterMap_cons, hg'a, List.mapM_cons, hga,
      ih (fun x hx => h x (List.mem_cons_of_mem _ hx))]
    rfl

theorem processRelated_ok (accessors : String → Option RelationTarget)
    (wr : List RelPath) (pr : Option (List AttrMap))
    (hall : ∀ m ∈ (processPaths wr).handledNames, (accessors m).isSome) :
    processRelatedFetches accessors wr pr = .ok (levelFetches accessors wr pr) := by
  unfold processRelatedFetches levelFetches
  apply mapM_except_ok
  intro m hm
  rcases Option.isSome_iff_exists.mp (hall m hm) with ⟨t, ht⟩
  refine ⟨FetchCall.mk m t (lookupSub (processPaths wr).subRelated m)
    (addConstraints t pr), ?_, ?_⟩
  · simp [invokeAccessor, ht, relationTruthy, Except.map]
  · simp [ht]

/-!
The claim theorems.
-/

/-- C1: for an Entity Set parent of any size (the rows list is arbitrary),
eager loading dispatches exactly one batched child query for a
HasOne/HasMany/BelongsTo relation at a level, constrained by
whereIn(foreignKey, identity values of the parents) -- a constraint equal, as
a value set, to the one over the distinct identity values -- while a
constrained-mode single-Entity parent gets where(foreignKey, =, fkValue). -/
theorem C1_spec (accessors : String → Option RelationTarget)
    (withRelated : List RelPath) (rows : List AttrMap) (n : String)
    (tgt : RelationTarget) (hacc : accessors n = some tgt)
    (htype : tgt.rel.type = .hasOne ∨ tgt.rel.type = .hasMany ∨
      tgt.rel.type = .belongsTo)
    (hn : n ∈ withRelated.map firstName)
    (hall : ∀ m ∈ (processPaths withRelated).handledNames, (accessors m).isSome) :
    processRelatedFetches accessors withRelated (some rows) =
        .ok (levelFetches accessors withRelated (some rows))
    ∧ (levelFetches accessors withRelated (some rows)).filter
        (fun f => f.name == n) =
        [FetchCall.mk n tgt (lookupSub (processPaths withRelated).subRelated n)
          (SelectQuery.mk [] []
            [WhereClause.whereIn tgt.rel.foreignKey
              (pluckA rows tgt.rel.parentIdAttr)])]
    ∧ (pluckA rows tgt.rel.parentIdAttr).toFinset =
        (pluckA rows tgt.rel.parentIdAttr).dedup.toFinset
    ∧ addConstraints tgt none =
        SelectQuery.mk [] []
          [WhereClause.whereEq tgt.rel.foreignKey tgt.rel.fkValue] := by
  have hbtm : (tgt.rel.type == RelType.belongsToMany) = false := by
    rcases htype with h | h | h <;> simp [h]
  refine ⟨processRelated_ok _ _ _ hall, ?_, ?_, ?_⟩
  · rw [levelFetches_filter accessors withRelated (some rows) n tgt hacc hn]
    simp [addConstraints, hbtm, constraints]
  · ext a
    simp
  · simp [addConstraints, hbtm, constraints]

/-- C1 witness: the example scenario, a two-user Entity Set with the hasMany
posts relation on user_id, gets exactly one batched query constrained by
whereIn over both identity values. -/
theorem C1_witness :
    processRelatedFetches postsAccessors [["posts"]]
        (some [[("id", Val.vnum 1)], [("id", Val.vnum 2)]]) =
        .ok (levelFetches postsAccessors [["posts"]]
          (some [[("id", Val.vnum 1)], [("id", Val.vnum 2)]]))
    ∧ (levelFetches postsAccessors [["posts"]]
        (some [[("id", Val.vnum 1)], [("id", Val.vnum 2)]])).filter
        (fun f => f.name == "posts") =
        [FetchCall.mk "posts" postsTarget
          (lookupSub (processPaths [["posts"]]).subRelated "posts")
          (SelectQuery.mk [] []
            [WhereClause.whereIn postsTarget.rel.foreignKey
              (pluckA [[("id", Val.vnum 1)], [("id", Val.vnum 2)]]
                postsTarget.rel.parentIdAttr)])]
    ∧ (pluckA [[("id", Val.vnum 1)], [("id", Val.vnum 2)]]
        postsTarget.rel.parentIdAttr).toFinset =
        (pluckA [[("id", Val.vnum 1)], [("id", Val.vnum 2)]]
          postsTarget.rel.parentIdAttr).dedup.toFinset
    ∧ addConstraints postsTarget none =
        SelectQuery.mk [] []
          [WhereClause.whereEq postsTarget.rel.foreignKey
            postsTarget.rel.fkValue] :=
  C1_spec postsAccessors [["posts"]] [[("id", Val.vnum 1)], [("id", Val.vnum 2)]]
    "posts" postsTarget (by decide) (Or.inr (Or.inl rfl)) (by decide) (by decide)

/-- C2 counterexample: a parent that is a member of an Entity Set (identity 2)
with zero matching fetched children (the only fetched child has user_id 1)
receives absence (the undefined findWhere result), not a freshly constructed
empty child entity. -/
theorem C2_counterexample :
    matchCollection relHasOne "id" [[("id", Val.vnum 2)]]
        [[("user_id", Val.vnum 1), ("id", Val.vnum 10)]] = [none]
    ∧ (none : Option RelValue) ≠ some (RelValue.single []) := by decide

/-- C2 amended: for HasOne/BelongsTo, only a single-Entity parent receives a
freshly constructed empty child entity when no children were fetched (and the
first fetched child otherwise); a parent that is a member of an Entity Set
receives the first matching child when one exists and absence (undefined)
otherwise. -/
theorem C2_amended_spec (rel : RelationOpts) (models fetched : List AttrMap)
    (id : Val) (htype : rel.type = .hasOne ∨ rel.type = .belongsTo) :
    matchSingleAssign rel models = .single (models.headD [])
    ∧ eagerRelated rel fetched id =
        ((fetched.filter (fun m => aget m rel.foreignKey == id)).head?).map
          RelValue.single := by
  refine ⟨?_, ?_⟩
  · rcases htype with h | h <;> (unfold matchSingleAssign; rw [h])
  · rcases htype with h | h <;>
      (unfold eagerRelated findWhereA; rw [h, find?_eq_head_filter])

/-- C2 amended witness: with one fetched child, the single-Entity parent
receives the first fetched child and an Entity Set member with a matching key
receives that child. -/
theorem C2_witness :
    matchSingleAssign relHasOne [[("user_id", Val.vnum 1)]] =
        .single ([[("user_id", Val.vnum 1)]].headD [])
    ∧ eagerRelated relHasOne [[("user_id", Val.vnum 1)]] (Val.vnum 1) =
        (([[("user_id", Val.vnum 1)]].filter
          (fun m => aget m relHasOne.foreignKey == Val.vnum 1)).head?).map
          RelValue.single :=
  C2_amended_spec relHasOne [[("user_id", Val.vnum 1)]]
    [[("user_id", Val.vnum 1)]] (Val.vnum 1) (Or.inl rfl)

/-- C3: a path list whose entries share a top-level name dispatches exactly
one fetch for that name (only the first occurrence constructs the
descriptor), and that single fetch's recorded suffix list collects the
remaining dotted suffix of every occurrence in request order, so its fetched
children are eagerly resolved for every recorded suffix at the next level. -/
theorem C3_spec (accessors : String → Option RelationTarget)
    (withRelated : List RelPath) (pr : Option (List AttrMap)) (n : String)
    (tgt : RelationTarget) (hacc : accessors n = some tgt)
    (hn : n ∈ withRelated.map firstName) :
    (levelFetches accessors withRelated pr).filter (fun f => f.name == n) =
      [FetchCall.mk n tgt (suffixesOf withRelated n)
        (addConstraints tgt pr)] := by
  rw [levelFetches_filter accessors withRelated pr n tgt hacc hn,
    lookupSub_processPaths]

/-- C3 witness: requesting the paths a.b and a.c issues exactly one fetch for
a, whose recorded suffix list holds both b and c. -/
theorem C3_witness :
    (levelFetches (fun s => if s == "a" then some postsTarget else none)
        [["a", "b"], ["a", "c"]] none).filter (fun f => f.name == "a") =
        [FetchCall.mk "a" postsTarget (suffixesOf [["a", "b"], ["a", "c"]] "a")
          (addConstraints postsTarget none)]
    ∧ suffixesOf [["a", "b"], ["a", "c"]] "a" = [["b"], ["c"]] :=
  ⟨C3_spec (fun s => if s == "a" then some postsTarget else none)
    [["a", "b"], ["a", "c"]] none "a" postsTarget (by decide) (by decide),
    by decide⟩

/-- C4: contrary to the claim, hasOne and belongsTo invoked with a Target
that does not denote a single-entity (Model) type do not fail with
RelationTypeMismatch: the guard's source expression parses as
(not Target.prototype) instanceof Model, a test of a boolean primitive that
is always false, so the construction succeeds and returns a target
instance. -/
theorem C4_code_bug :
    (hasOne modelXY nonModelTarget "user_id").isOk = true
    ∧ (belongsTo modelXY nonModelTarget "thing_id").isOk = true := by decide

/-- C5: contrary to the claim, a load whose first path segment has no
corresponding relation accessor fails with the TypeError of calling an
undefined property, not with the UnknownRelation error: that guard sits after
the accessor call and cannot be reached when the accessor is missing. The
call does fail rather than silently succeed. -/
theorem C5_code_bug :
    processRelatedFetches (fun _ => none) [["missing"]] none
        = .error (.typeErrorNotAFunction "missing")
    ∧ processRelatedFetches (fun _ => none) [["missing"]] none
        ≠ .error (.unknownRelation "missing") := by decide

/-- C6: contrary to the claim, update with options.partial set and explicit
attrs still sends the Entity's full formatted attribute map: the narrowed
local value is computed but the issued builder call passes
this.model.attributes. -/
theorem C6_code_bug :
    syncUpdate modelXY (some [("x", Val.vnum 1)]) true =
      UpdateQuery.mk "id" (Val.vnum 1)
        [("id", Val.vnum 1), ("x", Val.vnum 0), ("y", Val.vnum 2)]
    ∧ (syncUpdate modelXY (some [("x", Val.vnum 1)]) true).updateAttrs
        ≠ [("x", Val.vnum 1)] := by decide

/-- C7: contrary to the claim, detach with ids omitted issues no delete at
all (the normalized item list is empty), instead of one delete by the base
relation constraint removing all join rows for the owner; with ids given it
does issue deletes matched by the same row shape attach constructs. -/
theorem C7_code_bug :
    detach pivotUserRoles IdsArg.undef = []
    ∧ (detach pivotUserRoles (IdsArg.arr [PivotItem.bare (Val.vnum 5)])).map
          (fun q => q.row)
        = (attach pivotUserRoles (IdsArg.arr [PivotItem.bare (Val.vnum 5)])).map
          (fun q => q.row) := by decide

/-- C8: contrary to the claim, attaching an already-constructed child Entity
builds the join row with the target's key set to the relation's bound value
(the source reads pivot.fkValue there), not to the child Entity's identity:
attaching the child with identity 5 to the owner bound at 1 inserts the row
user_id 1, role_id 1. A bare identifier item does set the target's key from
the identifier, and one insert is issued per item. -/
theorem C8_code_bug :
    attach pivotUserRoles (IdsArg.one (PivotItem.entity (Val.vnum 5)))
        = [PivotQuery.mk "user_roles" .insert
            [("user_id", Val.vnum 1), ("role_id", Val.vnum 1)]]
    ∧ Val.vnum 1 ≠ Val.vnum 5
    ∧ attach pivotUserRoles (IdsArg.one (PivotItem.bare (Val.vnum 5)))
        = [PivotQuery.mk "user_roles" .insert
            [("user_id", Val.vnum 1), ("role_id", Val.vnum 5)]] := by decide

/-- C9: a delete on a dispatcher whose model has no identity value and whose
query carries no where clause is rejected with the guard message and no
delete is issued; with an identity value the delete is constrained by
identity equality; with no identity but explicit constraints already present
the delete runs under those alone. -/
theorem C9_spec (model : ModelState) (existingWheres : List WhereClause) :
    ((aget model.attributes model.idAttribute).neNull = false →
      existingWheres = [] →
      syncDel model existingWheres =
        .rejected "A model cannot be destroyed without a \"where\" clause or an idAttribute.")
    ∧ ((aget model.attributes model.idAttribute).neNull = true →
      syncDel model existingWheres =
        .issued (existingWheres ++ [WhereClause.whereEq model.idAttribute
          (aget model.attributes model.idAttribute)]))
    ∧ ((aget model.attributes model.idAttribute).neNull = false →
      existingWheres ≠ [] →
      syncDel model existingWheres = .issued existingWheres) := by
  refine ⟨?_, ?_, ?_⟩
  · intro h he
    subst he
    simp [syncDel, h]
  · intro h
    simp [syncDel, h]
  · intro h he
    simp [syncDel, h, List.length_eq_zero, he]

/-- C9 witness: the blank model with no identity value and no where clause is
rejected with the guard message. -/
theorem C9_witness :
    syncDel modelBlank [] =
      .rejected "A model cannot be destroyed without a \"where\" clause or an idAttribute." :=
  (C9_spec modelBlank []).1 rfl rfl

/-- C10: a plain attribute hash item of attach or detach is merged over the
join row after the owner's bound key has been set, so a hash carrying the
owner-side key overrides the relation's bound value in the row of the one
issued insert respectively delete. -/
theorem C10_spec (pivot : RelationOpts) (hm : AttrMap) (v : Val)
    (method : PivotMethod) (hnd : (hm.map Prod.fst).Nodup)
    (hv : lookupA hm pivot.otherKey = some v) :
    (handler pivot method (IdsArg.one (PivotItem.hash hm))).map
        (fun q => aget q.row pivot.otherKey) = [v] := by
  have hrow : aget (handlerRow pivot (PivotItem.hash hm)) pivot.otherKey = v := by
    unfold handlerRow
    exact aget_extendA_lookup hm _ pivot.otherKey v hnd hv
  cases method <;> simp [handler, PivotItem.truthyItem, hrow]

/-- C10 witness: attaching the hash binding user_id to 9 on the relation
bound to owner 1 issues one insert whose owner-side key holds 9, the hash's
value, overriding the bound value 1. -/
theorem C10_witness :
    (handler pivotUserRoles .insert
        (IdsArg.one (PivotItem.hash [("user_id", Val.vnum 9)]))).map
        (fun q => aget q.row pivotUserRoles.otherKey) = [Val.vnum 9] :=
  C10_spec pivotUserRoles [("user_id", Val.vnum 9)] (Val.vnum 9) .insert
    (by decide) (by decide)
